import Mathlib

/-!
Shallow embedding of the core relay hub of the audio streaming server
in src/server.py: the per-listener bounded frame queue (an asyncio.Queue
with maxsize 16, as used by StreamHub.broadcast), the StreamHub registry,
and the websocket uplink session protocol, modelled as a sequential event
step function.  The source runs on a single asyncio event loop and every
hub mutation of interest happens without an intervening await, so events
are processed atomically.  Bytes are naturals, frames are lists of bytes,
timestamps are naturals.
-/

namespace AudioStream

/-- A frame: one binary websocket message, an uninterpreted byte sequence. -/
abbrev Frame := List Nat

/-- Model of one asyncio.Queue used as a per-listener frame queue.
Field qid is the Python object identity (queues live in a set and are
discarded by identity).  Field broken models a queue whose
drain-and-repush rescue path raises at runtime, which is what the
inner except-Exception branch of StreamHub.broadcast defends against. -/
structure LQueue where
  qid : Nat
  maxsize : Nat
  items : List Frame
  broken : Bool
deriving Repr, DecidableEq

/-- asyncio semantics: a queue is full iff maxsize is positive and
qsize has reached maxsize. -/
def LQueue.full (q : LQueue) : Bool :=
  decide (0 < q.maxsize) && decide (q.maxsize ≤ q.items.length)

/-- Effect of StreamHub.broadcast on one healthy (non-broken) queue:
put_nowait appends when there is room; on QueueFull the code drains the
whole queue (while not q.empty(): q.get_nowait()) and then put_nowait
accepts the fresh frame, so the result is the single new frame. -/
def qpush (q : LQueue) (data : Frame) : LQueue :=
  if q.full then { q with items := [data] } else { q with items := q.items ++ [data] }

/-- A producer pushing a sequence of frames with no intervening pops. -/
def pushSeq (q : LQueue) (fs : List Frame) : LQueue := fs.foldl qpush q

/-- A freshly created listener queue (empty, healthy). -/
def newQueue (qid maxsize : Nat) : LQueue := ⟨qid, maxsize, [], false⟩

/-- Number of frames the queue retains after n pushes into an initially
empty queue of capacity C: the code empties the queue entirely on
overflow, so the count cycles 1..C. -/
def keepCount (C n : Nat) : Nat := (n - 1) % C + 1

/-- State of the StreamHub singleton: the set of listener queues (kept as a
list of identity-tagged queues), the registered producer websocket
(identified by a session id), the active flag, the start-of-stream
timestamp and the running byte counter. -/
structure StreamHub where
  listeners : List LQueue
  streamer : Option Nat
  active : Bool
  started_at : Option Nat
  bytes_total : Nat
deriving Repr, DecidableEq

/-- StreamHub.__init__. -/
def initHub : StreamHub :=
  { listeners := [], streamer := none, active := false, started_at := none, bytes_total := 0 }

/-- Handling of one queue inside StreamHub.broadcast: put_nowait, on
QueueFull drain and repush, and if that rescue itself raises the queue
is recorded as dead (result none) to be discarded. -/
def bstep (q : LQueue) (data : Frame) : Option LQueue :=
  if q.full then
    if q.broken then none else some { q with items := [data] }
  else some { q with items := q.items ++ [data] }

/-- StreamHub.broadcast: fan the frame out to a snapshot of the listener
set, discard dead queues, then add the frame length to the byte counter. -/
def StreamHub.broadcast (h : StreamHub) (data : Frame) : StreamHub :=
  { h with listeners := h.listeners.filterMap (fun q => bstep q data),
           bytes_total := h.bytes_total + data.length }

/-- Python exceptions relevant to broadcast. -/
inductive PyExc where
  | queueFull
  | runtimeError
deriving Repr, DecidableEq

/-- asyncio.Queue.put_nowait: raises QueueFull when the queue is full. -/
def put_nowaitE (q : LQueue) (data : Frame) : Except PyExc LQueue :=
  if q.full then .error .queueFull else .ok { q with items := q.items ++ [data] }

/-- The rescue path of broadcast: drain the queue and repush the fresh
frame; raises when the queue is broken. -/
def drain_repushE (q : LQueue) (data : Frame) : Except PyExc LQueue :=
  if q.broken then .error .runtimeError
  else put_nowaitE { q with items := [] } data

/-- Exception-explicit handling of one queue in broadcast, mirroring the
try/except structure of the source: only QueueFull from the first
put_nowait is rescued, and any failure of the rescue marks the queue dead. -/
def bstepE (q : LQueue) (data : Frame) : Except PyExc (Option LQueue) :=
  match put_nowaitE q data with
  | .ok q2 => .ok (some q2)
  | .error .queueFull =>
      match drain_repushE q data with
      | .ok q2 => .ok (some q2)
      | .error _ => .ok none
  | .error e => .error e

/-- Exception-explicit fan-out over the listener snapshot. -/
def fanoutE : List LQueue → Frame → Except PyExc (List LQueue)
  | [], _ => .ok []
  | q :: qs, data =>
      match bstepE q data with
      | .error e => .error e
      | .ok none => fanoutE qs data
      | .ok (some q2) =>
          match fanoutE qs data with
          | .error e => .error e
          | .ok rest => .ok (q2 :: rest)

/-- Exception-explicit StreamHub.broadcast. -/
def broadcastE (h : StreamHub) (data : Frame) : Except PyExc StreamHub :=
  match fanoutE h.listeners data with
  | .error e => .error e
  | .ok qs => .ok { h with listeners := qs, bytes_total := h.bytes_total + data.length }

/-- StreamHub.remove_listener: discard the queue from the set. -/
def StreamHub.remove_listener (h : StreamHub) (qid : Nat) : StreamHub :=
  { h with listeners := h.listeners.filter (fun q => q.qid != qid) }

/-- StreamHub.listeners_count. -/
def StreamHub.listeners_count (h : StreamHub) : Nat := h.listeners.length

/-- Python truthiness of the started_at attribute (None or a number). -/
def pytruthy : Option Nat → Bool
  | none => false
  | some t => t != 0

/-- The JSON object returned by StreamHub.stats. -/
structure Stats where
  active : Bool
  listeners : Nat
  bytes_total : Nat
  started_at : Option Nat
  uptime_sec : Nat
deriving Repr, DecidableEq

/-- StreamHub.stats: a pure projection of hub state at query time now. -/
def StreamHub.stats (h : StreamHub) (now : Nat) : Stats :=
  { active := h.active
    listeners := h.listeners_count
    bytes_total := h.bytes_total
    started_at := h.started_at
    uptime_sec :=
      if h.active && pytruthy h.started_at then now - h.started_at.getD 0 else 0 }

/-- Hub effect of the finally block of the uplink handler (the
producer-session teardown): the producer reference is cleared only when
the terminating websocket is the registered one, but the active flag is
cleared unconditionally (the assignment sits outside the identity check
in the source). -/
def endProducerSession (h : StreamHub) (sid : Nat) : StreamHub :=
  let h1 := if h.streamer = some sid then { h with streamer := none } else h
  { h1 with active := false }

/-- One uplink websocket handler instance: its identity, the local
ack_sent flag, whether the websocket transport is closed, and whether the
finally block has already run. -/
structure Session where
  sid : Nat
  ack_sent : Bool
  closed : Bool
  ended : Bool
deriving Repr, DecidableEq

/-- The acknowledgement JSON sent once per session. -/
structure AckMsg where
  type : String
  status : String
  listeners : Nat
deriving Repr, DecidableEq

/-- Observable outputs of the server towards clients. -/
inductive Output where
  | reject423
  | ack (sid : Nat) (msg : AckMsg)
  | pong (sid : Nat)
  | snapshot (st : Stats)
deriving Repr, DecidableEq

/-- Whole-server state: the hub singleton plus every uplink handler
instance ever started (ended ones are kept, marked ended). -/
structure ServerState where
  hub : StreamHub
  sessions : List Session
deriving Repr, DecidableEq

/-- The initial server state. -/
def init : ServerState := { hub := initHub, sessions := [] }

/-- Atomic events of the sequential execution model. -/
inductive Event where
  | connect (sid : Nat)
  | frame (sid : Nat) (data : Frame) (now : Nat)
  | ping (sid : Nat)
  | ws_close (sid : Nat)
  | disconnect (sid : Nat)
  | add_listener (qid : Nat) (broken : Bool)
  | remove_listener (qid : Nat)
  | stats_query (now : Nat)
deriving Repr, DecidableEq

/-- Look a session up by identity. -/
def findSession (ss : List Session) (sid : Nat) : Option Session :=
  ss.find? (fun x => x.sid == sid)

/-- Closedness of the websocket referenced by hub.streamer; a dangling
reference (impossible in the source, where the reference is always a real
websocket object) is treated as closed. -/
def sessionClosed (ss : List Session) (sid : Nat) : Bool :=
  match findSession ss sid with
  | none => true
  | some x => x.closed

/-- Update the session with the given identity. -/
def updSession (f : Session → Session) (sid : Nat) (ss : List Session) : List Session :=
  ss.map (fun x => if x.sid == sid then f x else x)

def setAck : List Session → Nat → List Session :=
  fun ss sid => updSession (fun x => { x with ack_sent := true }) sid ss

def markClosed : List Session → Nat → List Session :=
  fun ss sid => updSession (fun x => { x with closed := true }) sid ss

def markEnded : List Session → Nat → List Session :=
  fun ss sid => updSession (fun x => { x with closed := true, ended := true }) sid ss

/-- Admission check of the uplink endpoint: a streamer is registered and
its websocket is not closed. -/
def uplinkBusy (s : ServerState) : Bool :=
  match s.hub.streamer with
  | none => false
  | some cur => !(sessionClosed s.sessions cur)

/-- One atomic event of the server, returning the new state and the
outputs sent to clients.  The cases transcribe the uplink handler, the
listener endpoints and the stats endpoint of src/server.py. -/
def step (s : ServerState) (e : Event) : ServerState × List Output :=
  match e with
  | .connect sid =>
      -- uplink: reject with 423 while a non-closed streamer is registered
      if uplinkBusy s then (s, [.reject423])
      else if (findSession s.sessions sid).isSome then (s, [])
      else
        ({ hub := { s.hub with streamer := some sid, active := false, started_at := none },
           sessions := s.sessions ++ [⟨sid, false, false, false⟩] }, [])
  | .frame sid data now =>
      -- uplink: one BINARY message from the producer websocket
      match findSession s.sessions sid with
      | none => (s, [])
      | some sess =>
          if sess.closed || sess.ended then (s, [])
          else if data.isEmpty then (s, [])
          else
            let hub1 := s.hub.broadcast data
            if sess.ack_sent then ({ hub := hub1, sessions := s.sessions }, [])
            else
              let hub2 := { hub1 with active := true, started_at := some now }
              ({ hub := hub2, sessions := setAck s.sessions sid },
               [.ack sid ⟨"ack", "streaming_started", hub2.listeners_count⟩])
  | .ping sid =>
      -- uplink: a TEXT message equal to ping
      match findSession s.sessions sid with
      | none => (s, [])
      | some sess =>
          if sess.closed || sess.ended then (s, []) else (s, [.pong sid])
  | .ws_close sid =>
      -- the producer transport closes (the async-for will terminate)
      ({ hub := s.hub, sessions := markClosed s.sessions sid }, [])
  | .disconnect sid =>
      -- the finally block of the uplink handler runs
      match findSession s.sessions sid with
      | none => (s, [])
      | some sess =>
          if sess.ended then (s, [])
          else ({ hub := endProducerSession s.hub sid,
                  sessions := markEnded s.sessions sid }, [])
  | .add_listener qid broken =>
      -- listen_mp3: hub.add_listener() with a fresh Queue(maxsize=16)
      if (s.hub.listeners.find? (fun q => q.qid == qid)).isSome then (s, [])
      else ({ hub := { s.hub with listeners := s.hub.listeners ++ [⟨qid, 16, [], broken⟩] },
              sessions := s.sessions }, [])
  | .remove_listener qid =>
      -- listen_mp3 finally: hub.remove_listener(q)
      ({ hub := s.hub.remove_listener qid, sessions := s.sessions }, [])
  | .stats_query now =>
      -- the /stats endpoint: hub.stats()
      (s, [.snapshot (s.hub.stats now)])

/-- Run a list of events from a state, collecting outputs in order. -/
def run (s : ServerState) : List Event → ServerState × List Output
  | [] => (s, [])
  | e :: tr => ((run (step s e).1 tr).1, (step s e).2 ++ (run (step s e).1 tr).2)

/-- Recognise an acknowledgement sent to a given session. -/
def isAckFor (sid : Nat) : Output → Bool
  | .ack s _ => s == sid
  | _ => false

/-- Number of acknowledgements sent to a given session in an output log. -/
def ackCount (sid : Nat) (outs : List Output) : Nat :=
  (outs.filter (isAckFor sid)).length

/-- Timestamps delivered by time.time() are positive. -/
def posEvent : Event → Bool
  | .frame _ _ now => decide (0 < now)
  | _ => true

/-- Invariant tying the server state to the output log produced since
startup. -/
structure Inv (s : ServerState) (outs : List Output) : Prop where
  nodup : (s.sessions.map Session.sid).Nodup
  streamerOne : ∀ sess ∈ s.sessions, sess.closed = false → sess.ended = false →
    s.hub.streamer = some sess.sid
  activeSome : s.hub.active = true → s.hub.started_at.isSome = true
  ackInv : ∀ sess ∈ s.sessions,
    ackCount sess.sid outs = if sess.ack_sent then 1 else 0
  ackFresh : ∀ sid, (∀ sess ∈ s.sessions, sess.sid ≠ sid) → ackCount sid outs = 0

/-! ### Lemmas and claim theorems -/

theorem qpush_maxsize (q : LQueue) (f : Frame) : (qpush q f).maxsize = q.maxsize := by
  unfold qpush; split <;> rfl

theorem pushSeq_maxsize (fs : List Frame) (q : LQueue) :
    (pushSeq q fs).maxsize = q.maxsize := by
  induction fs generalizing q with
  | nil => rfl
  | cons f fs ih =>
      show (pushSeq (qpush q f) fs).maxsize = q.maxsize
      rw [ih, qpush_maxsize]

theorem mod_succ_of_lt {C m : Nat} (h : m % C + 1 < C) : (m + 1) % C = m % C + 1 := by
  have hC : 1 < C := lt_of_le_of_lt (Nat.le_add_left 1 (m % C)) h
  rw [Nat.add_mod, Nat.mod_eq_of_lt hC, Nat.mod_eq_of_lt h]

theorem mod_succ_of_eq {C m : Nat} (hC : 0 < C) (h : m % C + 1 = C) : (m + 1) % C = 0 := by
  rcases Nat.lt_or_ge 1 C with h1 | h1
  · rw [Nat.add_mod, Nat.mod_eq_of_lt h1, h, Nat.mod_self]
  · have : C = 1 := le_antisymm h1 hC
    subst this; simp [Nat.mod_one]

theorem pushSeq_items (C : Nat) (hC : 0 < C) (fs : List Frame) :
    (pushSeq (newQueue 0 C) fs).items =
      fs.drop (fs.length - keepCount C fs.length) := by
  induction fs using List.reverseRecOn with
  | nil => rfl
  | append_singleton l a ih =>
    have hstep : pushSeq (newQueue 0 C) (l ++ [a]) =
        qpush (pushSeq (newQueue 0 C) l) a := by
      unfold pushSeq
      rw [List.foldl_append]
      rfl
    rw [hstep]
    have hmax : (pushSeq (newQueue 0 C) l).maxsize = C := pushSeq_maxsize l _
    rcases Nat.eq_zero_or_pos l.length with hn | hn
    · -- first push into the empty queue
      have hl : l = [] := List.eq_nil_of_length_eq_zero hn
      subst hl
      have hCle : ¬ (C ≤ 0) := by omega
      simp [pushSeq, qpush, newQueue, LQueue.full, hCle, keepCount]
    · -- l has length at least one; the queue holds (length - 1) % C + 1 frames
      have hk1 : (l.length - 1) % C < C := Nat.mod_lt _ hC
      have hkn : (l.length - 1) % C + 1 ≤ l.length := by
        have := Nat.mod_le (l.length - 1) C
        omega
      have hlen : (pushSeq (newQueue 0 C) l).items.length = (l.length - 1) % C + 1 := by
        rw [ih, List.length_drop]
        simp only [keepCount]
        omega
      have hsucc : l.length - 1 + 1 = l.length := by omega
      have hlapp : (l ++ [a]).length = l.length + 1 := by
        rw [List.length_append, List.length_singleton]
      rcases Nat.lt_or_ge ((l.length - 1) % C + 1) C with hlt | hge
      · -- room left: put_nowait appends
        have hfull : (pushSeq (newQueue 0 C) l).full = false := by
          simp only [LQueue.full, hmax, hlen]
          simp [Nat.not_le.mpr hlt]
        have hmod : l.length % C = (l.length - 1) % C + 1 := by
          have h2 := mod_succ_of_lt hlt
          rw [hsucc] at h2
          exact h2
        have hitems : (qpush (pushSeq (newQueue 0 C) l) a).items =
            (pushSeq (newQueue 0 C) l).items ++ [a] := by
          unfold qpush
          rw [hfull]
          rfl
        rw [hitems, ih]
        simp only [keepCount, hlapp, Nat.add_sub_cancel, hmod]
        have hidx : l.length + 1 - ((l.length - 1) % C + 1 + 1) =
            l.length - ((l.length - 1) % C + 1) := by omega
        rw [hidx]
        rw [List.drop_append_of_le_length (by omega : l.length - ((l.length - 1) % C + 1) ≤ l.length)]
      · -- queue is at capacity: drain all, keep only the new frame
        have hkc : (l.length - 1) % C + 1 = C := by omega
        have hfull : (pushSeq (newQueue 0 C) l).full = true := by
          simp only [LQueue.full, hmax, hlen]
          simp [hC, hkc]
        have hmod : l.length % C = 0 := by
          have h2 := mod_succ_of_eq hC hkc
          rw [hsucc] at h2
          exact h2
        have hitems : (qpush (pushSeq (newQueue 0 C) l) a).items = [a] := by
          unfold qpush
          rw [hfull]
          rfl
        rw [hitems]
        simp only [keepCount, hlapp, Nat.add_sub_cancel, hmod]
        rw [List.drop_append_of_le_length (le_refl l.length), List.drop_length]
        rfl

theorem ackCount_append (sid : Nat) (a b : List Output) :
    ackCount sid (a ++ b) = ackCount sid a + ackCount sid b := by
  simp [ackCount, List.filter_append]

theorem ackCount_nil (sid : Nat) : ackCount sid [] = 0 := rfl

theorem ackCount_ack (sid sid2 : Nat) (m : AckMsg) :
    ackCount sid [.ack sid2 m] = if sid2 = sid then 1 else 0 := by
  by_cases h : sid2 = sid
  · simp [ackCount, isAckFor, List.filter, h]
  · have hb : (sid2 == sid) = false := beq_eq_false_iff_ne.mpr h
    simp [ackCount, isAckFor, List.filter, hb, h]

theorem ackCount_reject (sid : Nat) : ackCount sid [.reject423] = 0 := rfl

theorem ackCount_pong (sid sid2 : Nat) : ackCount sid [.pong sid2] = 0 := rfl

theorem ackCount_snapshot (sid : Nat) (st : Stats) : ackCount sid [.snapshot st] = 0 := rfl

theorem updSession_map_sid (f : Session → Session) (hf : ∀ x, (f x).sid = x.sid)
    (sid : Nat) (ss : List Session) :
    (updSession f sid ss).map Session.sid = ss.map Session.sid := by
  simp only [updSession, List.map_map]
  apply List.map_congr_left
  intro x _
  simp only [Function.comp_apply]
  split
  · exact hf x
  · rfl

theorem setAck_map_sid (ss : List Session) (sid : Nat) :
    (setAck ss sid).map Session.sid = ss.map Session.sid := by
  exact updSession_map_sid (fun x => { x with ack_sent := true }) (fun _ => rfl) sid ss

theorem markClosed_map_sid (ss : List Session) (sid : Nat) :
    (markClosed ss sid).map Session.sid = ss.map Session.sid := by
  exact updSession_map_sid (fun x => { x with closed := true }) (fun _ => rfl) sid ss

theorem markEnded_map_sid (ss : List Session) (sid : Nat) :
    (markEnded ss sid).map Session.sid = ss.map Session.sid := by
  exact updSession_map_sid (fun x => { x with closed := true, ended := true }) (fun _ => rfl) sid ss

theorem mem_updSession {y : Session} {f : Session → Session} {sid : Nat} {ss : List Session}
    (hy : y ∈ updSession f sid ss) :
    ∃ x ∈ ss, y = if x.sid == sid then f x else x := by
  rcases List.mem_map.mp hy with ⟨x, hx, hxy⟩
  exact ⟨x, hx, hxy.symm⟩

theorem findSession_some {ss : List Session} {sid : Nat} {x : Session}
    (h : findSession ss sid = some x) : x ∈ ss ∧ x.sid = sid := by
  refine ⟨List.mem_of_find?_eq_some h, ?_⟩
  have := List.find?_some h
  simpa using this

theorem findSession_none {ss : List Session} {sid : Nat}
    (h : findSession ss sid = none) : ∀ x ∈ ss, x.sid ≠ sid := by
  intro x hx
  have := List.find?_eq_none.mp h x hx
  simpa using this

theorem find_eq_of_mem_nodup {ss : List Session} (hnd : (ss.map Session.sid).Nodup)
    {sess : Session} (hm : sess ∈ ss) : findSession ss sess.sid = some sess := by
  induction ss with
  | nil => cases hm
  | cons x xs ih =>
      rcases List.mem_cons.mp hm with rfl | hm2
      · simp [findSession, List.find?]
      · have hnd2 : (xs.map Session.sid).Nodup := (List.nodup_cons.mp hnd).2
        have hx : x.sid ∉ xs.map Session.sid := (List.nodup_cons.mp hnd).1
        have hne : (x.sid == sess.sid) = false := by
          rw [beq_eq_false_iff_ne]
          intro hcontra
          exact hx (hcontra ▸ List.mem_map_of_mem Session.sid hm2)
        simp only [findSession, List.find?, hne]
        exact ih hnd2 hm2

theorem sid_inj_of_nodup {ss : List Session} (hnd : (ss.map Session.sid).Nodup)
    {x y : Session} (hx : x ∈ ss) (hy : y ∈ ss) (hsid : x.sid = y.sid) : x = y :=
  List.inj_on_of_nodup_map hnd hx hy hsid

theorem inv_init : Inv init [] := by
  refine ⟨?_, ?_, ?_, ?_, ?_⟩ <;> simp [init, initHub, ackCount]

theorem broadcast_streamer (h : StreamHub) (data : Frame) :
    (h.broadcast data).streamer = h.streamer := rfl

theorem broadcast_active (h : StreamHub) (data : Frame) :
    (h.broadcast data).active = h.active := rfl

theorem broadcast_started_at (h : StreamHub) (data : Frame) :
    (h.broadcast data).started_at = h.started_at := rfl

theorem broadcast_bytes (h : StreamHub) (data : Frame) :
    (h.broadcast data).bytes_total = h.bytes_total + data.length := rfl

theorem endProducerSession_eq (h : StreamHub) (sid : Nat) :
    endProducerSession h sid =
      { h with active := false,
               streamer := if h.streamer = some sid then none else h.streamer } := by
  unfold endProducerSession
  split
  · rfl
  · rfl

/-- Invariant preservation under a step that leaves the state unchanged
and emits no acknowledgement. -/
theorem Inv.same_state {s : ServerState} {outs : List Output} (h : Inv s outs)
    (o : List Output) (hzero : ∀ sid, ackCount sid o = 0) : Inv s (outs ++ o) := by
  refine ⟨h.nodup, h.streamerOne, h.activeSome, ?_, ?_⟩
  · intro sess hm
    rw [ackCount_append, hzero, Nat.add_zero]
    exact h.ackInv sess hm
  · intro sid2 hno
    rw [ackCount_append, hzero, Nat.add_zero]
    exact h.ackFresh sid2 hno

theorem inv_step {s : ServerState} {outs : List Output} (h : Inv s outs) (e : Event) :
    Inv (step s e).1 (outs ++ (step s e).2) := by
  obtain ⟨hnd, hone, hact, hackI, hackF⟩ := h
  cases e with
  | connect sid =>
      simp only [step]
      split
      next hbusy =>
          exact Inv.same_state ⟨hnd, hone, hact, hackI, hackF⟩ _
            (fun sid2 => ackCount_reject sid2)
      next hbusy =>
          split
          next hdup =>
              exact Inv.same_state ⟨hnd, hone, hact, hackI, hackF⟩ _ (fun _ => rfl)
          next hdup =>
              have hfindnone : findSession s.sessions sid = none := by
                cases hfs : findSession s.sessions sid with
                | none => rfl
                | some x => rw [hfs] at hdup; simp at hdup
              have hnot : ∀ x ∈ s.sessions, x.sid ≠ sid := findSession_none hfindnone
              have hnolive : ∀ sess ∈ s.sessions,
                  sess.closed = false → sess.ended = false → False := by
                intro sess hm hc he
                have hstr := hone sess hm hc he
                have hfind2 : findSession s.sessions sess.sid = some sess :=
                  find_eq_of_mem_nodup hnd hm
                have hclosed : sessionClosed s.sessions sess.sid = false := by
                  unfold sessionClosed
                  rw [hfind2]
                  exact hc
                apply hbusy
                unfold uplinkBusy
                rw [hstr]
                show (!sessionClosed s.sessions sess.sid) = true
                rw [hclosed]
                rfl
              dsimp only
              refine ⟨?_, ?_, ?_, ?_, ?_⟩
              · rw [List.map_append, List.nodup_append]
                refine ⟨hnd, List.nodup_singleton _, ?_⟩
                intro a ha hb
                rcases List.mem_map.mp ha with ⟨x, hx, rfl⟩
                exact hnot x hx (List.mem_singleton.mp hb)
              · intro sess hm hc he
                rcases List.mem_append.mp hm with hm2 | hm2
                · exact (hnolive sess hm2 hc he).elim
                · rcases List.mem_singleton.mp hm2 with rfl
                  rfl
              · intro habs
                exact absurd habs (by simp)
              · intro sess hm
                rcases List.mem_append.mp hm with hm2 | hm2
                · rw [List.append_nil]
                  exact hackI sess hm2
                · rcases List.mem_singleton.mp hm2 with rfl
                  rw [List.append_nil]
                  simpa using hackF sid hnot
              · intro sid2 hno
                rw [List.append_nil]
                refine hackF sid2 ?_
                intro sess hm
                exact hno sess (List.mem_append.mpr (Or.inl hm))
  | frame sid data now =>
      simp only [step]
      split
      next hfind =>
          exact Inv.same_state ⟨hnd, hone, hact, hackI, hackF⟩ _ (fun _ => rfl)
      next sess hfind =>
          obtain ⟨hmem, hsid⟩ := findSession_some hfind
          split
          next hdead =>
              exact Inv.same_state ⟨hnd, hone, hact, hackI, hackF⟩ _ (fun _ => rfl)
          next hdead =>
              split
              next hempty =>
                  exact Inv.same_state ⟨hnd, hone, hact, hackI, hackF⟩ _ (fun _ => rfl)
              next hempty =>
                  split
                  next hasent =>
                      dsimp only
                      refine ⟨hnd, ?_, ?_, ?_, ?_⟩
                      · intro x hm hc he
                        rw [broadcast_streamer]
                        exact hone x hm hc he
                      · rw [broadcast_active, broadcast_started_at]
                        exact hact
                      · intro x hm
                        rw [List.append_nil]
                        exact hackI x hm
                      · intro sid2 hno
                        rw [List.append_nil]
                        exact hackF sid2 hno
                  next hasent =>
                      rw [Bool.not_eq_true] at hasent
                      dsimp only
                      refine ⟨?_, ?_, ?_, ?_, ?_⟩
                      · show (List.map Session.sid (setAck s.sessions sid)).Nodup
                        rw [setAck_map_sid]
                        exact hnd
                      · intro x hm hc he
                        simp only [setAck] at hm
                        rcases mem_updSession hm with ⟨y, hy, hxy⟩
                        have hxs : x.sid = y.sid ∧ x.closed = y.closed ∧ x.ended = y.ended := by
                          rw [hxy]
                          split
                          · exact ⟨rfl, rfl, rfl⟩
                          · exact ⟨rfl, rfl, rfl⟩
                        show (s.hub.broadcast data).streamer = some x.sid
                        rw [broadcast_streamer, hxs.1]
                        exact hone y hy (hxs.2.1 ▸ hc) (hxs.2.2 ▸ he)
                      · intro _
                        rfl
                      · intro x hm
                        simp only [setAck] at hm
                        rcases mem_updSession hm with ⟨y, hy, hxy⟩
                        by_cases hysid : y.sid = sid
                        · have hysess : y = sess :=
                            sid_inj_of_nodup hnd hy hmem (by rw [hysid, hsid])
                          have hb : (y.sid == sid) = true := beq_iff_eq.mpr hysid
                          have hxval : x = { sess with ack_sent := true } := by
                            rw [hxy, if_pos hb, hysess]
                          rw [hxval]
                          dsimp only
                          rw [ackCount_append, hackI sess hmem, hasent, hsid, ackCount_ack]
                          simp
                        · have hc2 : ¬ ((y.sid == sid) = true) := by
                            rw [beq_eq_false_iff_ne.mpr hysid]
                            simp
                          have hxval : x = y := by
                            rw [hxy, if_neg hc2]
                          rw [hxval, ackCount_append, ackCount_ack,
                            if_neg (fun hc3 => hysid hc3.symm), Nat.add_zero]
                          exact hackI y hy
                      · intro sid2 hno
                        simp only [setAck] at hno
                        have hsidne : ¬ (sid = sid2) := by
                          intro hc2
                          have hb : (sess.sid == sid) = true := beq_iff_eq.mpr hsid
                          have himg : ({ sess with ack_sent := true } : Session) ∈
                              updSession (fun x => { x with ack_sent := true }) sid s.sessions := by
                            have heq2 : (if (sess.sid == sid) = true
                                then ({ sess with ack_sent := true } : Session) else sess) =
                                { sess with ack_sent := true } := if_pos hb
                            rw [← heq2]
                            exact List.mem_map_of_mem _ hmem
                          apply hno _ himg
                          show sess.sid = sid2
                          rw [hsid, hc2]
                        rw [ackCount_append, ackCount_ack, if_neg hsidne, Nat.add_zero]
                        refine hackF sid2 ?_
                        intro x hx hxsid
                        have himg : (if (x.sid == sid) = true
                            then ({ x with ack_sent := true } : Session) else x) ∈
                            updSession (fun x => { x with ack_sent := true }) sid s.sessions :=
                          List.mem_map_of_mem _ hx
                        have hsidimg : (if (x.sid == sid) = true
                            then ({ x with ack_sent := true } : Session) else x).sid = x.sid := by
                          split
                          · rfl
                          · rfl
                        exact hno _ himg (by rw [hsidimg, hxsid])
  | ping sid =>
      simp only [step]
      split
      next hfind =>
          exact Inv.same_state ⟨hnd, hone, hact, hackI, hackF⟩ _ (fun _ => rfl)
      next sess hfind =>
          split
          next hdead =>
              exact Inv.same_state ⟨hnd, hone, hact, hackI, hackF⟩ _ (fun _ => rfl)
          next hdead =>
              exact Inv.same_state ⟨hnd, hone, hact, hackI, hackF⟩ _
                (fun sid2 => ackCount_pong sid2 sid)
  | ws_close sid =>
      simp only [step]
      refine ⟨?_, ?_, hact, ?_, ?_⟩
      · show (List.map Session.sid (markClosed s.sessions sid)).Nodup
        rw [markClosed_map_sid]
        exact hnd
      · intro x hm hc he
        simp only [markClosed] at hm
        rcases mem_updSession hm with ⟨y, hy, hxy⟩
        by_cases hysid : (y.sid == sid) = true
        · rw [if_pos hysid] at hxy
          rw [hxy] at hc
          simp at hc
        · rw [if_neg hysid] at hxy
          rw [hxy]
          rw [hxy] at hc he
          exact hone y hy hc he
      · intro x hm
        simp only [markClosed] at hm
        rcases mem_updSession hm with ⟨y, hy, hxy⟩
        have hx2 : x.sid = y.sid ∧ x.ack_sent = y.ack_sent := by
          rw [hxy]
          split
          · exact ⟨rfl, rfl⟩
          · exact ⟨rfl, rfl⟩
        rw [List.append_nil, hx2.1, hx2.2]
        exact hackI y hy
      · intro sid2 hno
        simp only [markClosed] at hno
        rw [List.append_nil]
        refine hackF sid2 ?_
        intro x hx hxsid
        have himg : (if (x.sid == sid) = true
            then ({ x with closed := true } : Session) else x) ∈
            updSession (fun x => { x with closed := true }) sid s.sessions :=
          List.mem_map_of_mem _ hx
        have hsidimg : (if (x.sid == sid) = true
            then ({ x with closed := true } : Session) else x).sid = x.sid := by
          split
          · rfl
          · rfl
        exact hno _ himg (by rw [hsidimg, hxsid])
  | disconnect sid =>
      simp only [step]
      split
      next hfind =>
          exact Inv.same_state ⟨hnd, hone, hact, hackI, hackF⟩ _ (fun _ => rfl)
      next sess hfind =>
          split
          next hended =>
              exact Inv.same_state ⟨hnd, hone, hact, hackI, hackF⟩ _ (fun _ => rfl)
          next hended =>
              dsimp only
              refine ⟨?_, ?_, ?_, ?_, ?_⟩
              · show (List.map Session.sid (markEnded s.sessions sid)).Nodup
                rw [markEnded_map_sid]
                exact hnd
              · intro x hm hc he
                simp only [markEnded] at hm
                rcases mem_updSession hm with ⟨y, hy, hxy⟩
                by_cases hysid : (y.sid == sid) = true
                · rw [if_pos hysid] at hxy
                  rw [hxy] at he
                  simp at he
                · rw [if_neg hysid] at hxy
                  rw [hxy]
                  rw [hxy] at hc he
                  have hstr := hone y hy hc he
                  rw [endProducerSession_eq]
                  show (if s.hub.streamer = some sid then none else s.hub.streamer) = some y.sid
                  have hne : ¬ (s.hub.streamer = some sid) := by
                    rw [hstr]
                    intro hc2
                    have hysideq : y.sid = sid := by injection hc2
                    exact hysid (beq_iff_eq.mpr hysideq)
                  rw [if_neg hne]
                  exact hstr
              · rw [endProducerSession_eq]
                intro habs
                exact absurd habs (by simp)
              · intro x hm
                simp only [markEnded] at hm
                rcases mem_updSession hm with ⟨y, hy, hxy⟩
                have hx2 : x.sid = y.sid ∧ x.ack_sent = y.ack_sent := by
                  rw [hxy]
                  split
                  · exact ⟨rfl, rfl⟩
                  · exact ⟨rfl, rfl⟩
                rw [List.append_nil, hx2.1, hx2.2]
                exact hackI y hy
              · intro sid2 hno
                simp only [markEnded] at hno
                rw [List.append_nil]
                refine hackF sid2 ?_
                intro x hx hxsid
                have himg : (if (x.sid == sid) = true
                    then ({ x with closed := true, ended := true } : Session) else x) ∈
                    updSession (fun x => { x with closed := true, ended := true }) sid s.sessions :=
                  List.mem_map_of_mem _ hx
                have hsidimg : (if (x.sid == sid) = true
                    then ({ x with closed := true, ended := true } : Session) else x).sid = x.sid := by
                  split
                  · rfl
                  · rfl
                exact hno _ himg (by rw [hsidimg, hxsid])
  | add_listener qid broken =>
      simp only [step]
      split
      next hdup =>
          exact Inv.same_state ⟨hnd, hone, hact, hackI, hackF⟩ _ (fun _ => rfl)
      next hdup =>
          dsimp only
          refine ⟨hnd, ?_, hact, ?_, ?_⟩
          · intro x hm hc he
            exact hone x hm hc he
          · intro x hm
            rw [List.append_nil]
            exact hackI x hm
          · intro sid2 hno
            rw [List.append_nil]
            exact hackF sid2 hno
  | remove_listener qid =>
      simp only [step]
      refine ⟨hnd, ?_, hact, ?_, ?_⟩
      · intro x hm hc he
        exact hone x hm hc he
      · intro x hm
        rw [List.append_nil]
        exact hackI x hm
      · intro sid2 hno
        rw [List.append_nil]
        exact hackF sid2 hno
  | stats_query now =>
      simp only [step]
      exact Inv.same_state ⟨hnd, hone, hact, hackI, hackF⟩ _
        (fun sid2 => ackCount_snapshot sid2 _)

theorem inv_run_aux {s : ServerState} {outs : List Output} (h : Inv s outs) (tr : List Event) :
    Inv (run s tr).1 (outs ++ (run s tr).2) := by
  induction tr generalizing s outs with
  | nil => simpa [run] using h
  | cons e tr ih =>
      have h2 := inv_step h e
      have h3 := ih h2
      simp only [run]
      rwa [List.append_assoc] at h3

theorem inv_run (tr : List Event) : Inv (run init tr).1 (run init tr).2 := by
  have := inv_run_aux inv_init tr
  simpa using this

theorem pos_step {s : ServerState} (e : Event) (hpos : posEvent e = true)
    (h : s.hub.active = true → ∃ t, s.hub.started_at = some t ∧ 0 < t) :
    (step s e).1.hub.active = true →
      ∃ t, (step s e).1.hub.started_at = some t ∧ 0 < t := by
  cases e with
  | connect sid =>
      simp only [step]
      split
      · exact h
      · split
        · exact h
        · intro habs
          exact absurd habs (by simp)
  | frame sid data now =>
      simp only [step]
      split
      · exact h
      next sess hfind =>
          split
          · exact h
          · split
            · exact h
            · split
              · show (s.hub.broadcast data).active = true → _
                rw [broadcast_active, broadcast_started_at]
                exact h
              · intro _
                refine ⟨now, rfl, ?_⟩
                simpa [posEvent] using hpos
  | ping sid =>
      simp only [step]
      split
      · exact h
      · split
        · exact h
        · exact h
  | ws_close sid =>
      simp only [step]
      exact h
  | disconnect sid =>
      simp only [step]
      split
      · exact h
      · split
        · exact h
        · rw [endProducerSession_eq]
          intro habs
          exact absurd habs (by simp)
  | add_listener qid broken =>
      simp only [step]
      split
      · exact h
      · exact h
  | remove_listener qid =>
      simp only [step]
      exact h
  | stats_query now =>
      simp only [step]
      exact h

theorem pos_run_aux {s : ServerState} (tr : List Event)
    (hpos : ∀ e ∈ tr, posEvent e = true)
    (h : s.hub.active = true → ∃ t, s.hub.started_at = some t ∧ 0 < t) :
    (run s tr).1.hub.active = true →
      ∃ t, (run s tr).1.hub.started_at = some t ∧ 0 < t := by
  induction tr generalizing s with
  | nil => exact h
  | cons e tr ih =>
      have h1 := pos_step e (hpos e (List.mem_cons_self e tr)) h
      exact ih (fun x hx => hpos x (List.mem_cons_of_mem e hx)) h1

theorem pos_run (tr : List Event) (hpos : ∀ e ∈ tr, posEvent e = true) :
    (run init tr).1.hub.active = true →
      ∃ t, (run init tr).1.hub.started_at = some t ∧ 0 < t :=
  pos_run_aux tr hpos (fun habs => absurd habs (by simp [init, initHub]))

theorem step_bytes_mono (s : ServerState) (e : Event) :
    s.hub.bytes_total ≤ (step s e).1.hub.bytes_total := by
  cases e with
  | connect sid =>
      simp only [step]
      split
      · exact le_refl _
      · split
        · exact le_refl _
        · exact le_refl _
  | frame sid data now =>
      simp only [step]
      split
      · exact le_refl _
      next sess hfind =>
          split
          · exact le_refl _
          · split
            · exact le_refl _
            · split
              · show s.hub.bytes_total ≤ (s.hub.broadcast data).bytes_total
                rw [broadcast_bytes]
                exact Nat.le_add_right _ _
              · show s.hub.bytes_total ≤ (s.hub.broadcast data).bytes_total
                rw [broadcast_bytes]
                exact Nat.le_add_right _ _
  | ping sid =>
      simp only [step]
      split
      · exact le_refl _
      · split
        · exact le_refl _
        · exact le_refl _
  | ws_close sid =>
      simp only [step]
      exact le_refl _
  | disconnect sid =>
      simp only [step]
      split
      · exact le_refl _
      · split
        · exact le_refl _
        · show s.hub.bytes_total ≤ (endProducerSession s.hub sid).bytes_total
          rw [endProducerSession_eq]
  | add_listener qid broken =>
      simp only [step]
      split
      · exact le_refl _
      · exact le_refl _
  | remove_listener qid =>
      simp only [step]
      exact le_refl _
  | stats_query now =>
      simp only [step]
      exact le_refl _

theorem run_bytes_mono (s : ServerState) (tr : List Event) :
    s.hub.bytes_total ≤ (run s tr).1.hub.bytes_total := by
  induction tr generalizing s with
  | nil => exact le_refl _
  | cons e tr ih =>
      exact le_trans (step_bytes_mono s e) (ih (step s e).1)

theorem bstepE_eq (q : LQueue) (data : Frame) : bstepE q data = .ok (bstep q data) := by
  by_cases hf : q.full = true
  · have hmax : 0 < q.maxsize := by
      have h2 := hf
      simp only [LQueue.full, Bool.and_eq_true, decide_eq_true_eq] at h2
      exact h2.1
    by_cases hb : q.broken = true
    · simp [bstepE, put_nowaitE, drain_repushE, bstep, hf, hb]
    · have hcf : ∀ b : Bool,
          ({ qid := q.qid, maxsize := q.maxsize, items := [], broken := b } : LQueue).full
            = false := by
        intro b
        simp [LQueue.full]
        omega
      simp [bstepE, put_nowaitE, drain_repushE, bstep, hf, hb, hcf]
  · simp [bstepE, put_nowaitE, bstep, hf]

theorem fanoutE_eq (qs : List LQueue) (data : Frame) :
    fanoutE qs data = .ok (qs.filterMap (fun q => bstep q data)) := by
  induction qs with
  | nil => rfl
  | cons q qs ih =>
      simp only [fanoutE, bstepE_eq]
      cases hbs : bstep q data with
      | none => simp [List.filterMap_cons, hbs, ih]
      | some q2 => simp [List.filterMap_cons, hbs, ih]

/-- C1 (counterexample): pushing frames A, B, C into an empty queue of
capacity 2 with no pops leaves the queue holding exactly [C], not [B, C]:
the overflow path of StreamHub.broadcast drains the whole queue before
re-enqueueing, instead of evicting only until there is room. -/
theorem pushSeq_cap2_counterexample :
    (pushSeq (newQueue 0 2) [[0], [1], [2]]).items = [[2]] ∧
    (pushSeq (newQueue 0 2) [[0], [1], [2]]).items ≠ [[1], [2]] := by
  constructor
  · rfl
  · decide

/-- C1 (amended): for a queue of capacity C > 0, after any sequence of
pushes with no intervening pops the queue holds at most C frames, and it
holds exactly the keepCount C n = ((n - 1) mod C) + 1 most recently
pushed frames in push order (the whole queue is drained on overflow, so
the retained count cycles instead of staying at C). -/
theorem pushSeq_holds_recent_suffix (C : Nat) (hC : 0 < C) (fs : List Frame) :
    (pushSeq (newQueue 0 C) fs).items =
      fs.drop (fs.length - keepCount C fs.length) ∧
    (pushSeq (newQueue 0 C) fs).items.length ≤ C := by
  refine ⟨pushSeq_items C hC fs, ?_⟩
  rw [pushSeq_items C hC fs, List.length_drop]
  have hkC : keepCount C fs.length ≤ C := by
    have := Nat.mod_lt (fs.length - 1) hC
    simp only [keepCount]
    omega
  omega

/-- Witness for C1 at capacity 2 with three pushed frames. -/
theorem pushSeq_holds_recent_suffix_witness :
    0 < 2 ∧
    ((pushSeq (newQueue 0 2) [[0], [1], [2]]).items =
      [[0], [1], [2]].drop
        (([[0], [1], [2]] : List Frame).length - keepCount 2 ([[0], [1], [2]] : List Frame).length) ∧
    (pushSeq (newQueue 0 2) [[0], [1], [2]]).items.length ≤ 2) :=
  ⟨by decide, pushSeq_holds_recent_suffix 2 (by decide) [[0], [1], [2]]⟩

/-- C2 (counterexample): after a producer connects, streams one frame and
disconnects, the hub has active = false but started_at still set: the
finally block of the uplink handler clears only the active flag, so the
invariant that active and started_at are both unset or both set fails
after producer disconnect. -/
theorem disconnect_keeps_started_at_counterexample :
    (run init [.connect 0, .frame 0 [7] 5, .disconnect 0]).1.hub.active = false ∧
    (run init [.connect 0, .frame 0 [7] 5, .disconnect 0]).1.hub.started_at = some 5 := by
  constructor
  · rfl
  · rfl

/-- C2 (amended): on every reachable state, active = true implies
started_at is set (acceptance clears both and the first non-empty frame
sets both), but producer disconnect clears only active and never touches
started_at, so the converse direction fails. -/
theorem active_implies_started_at (tr : List Event) :
    ((run init tr).1.hub.active = true → (run init tr).1.hub.started_at.isSome = true) ∧
    (∀ (s : ServerState) (sid : Nat),
      (step s (.disconnect sid)).1.hub.started_at = s.hub.started_at) := by
  constructor
  · exact (inv_run tr).activeSome
  · intro s sid
    simp only [step]
    split
    · rfl
    · split
      · rfl
      · show (endProducerSession s.hub sid).started_at = s.hub.started_at
        rw [endProducerSession_eq]

/-- Witness for C2 on a trace that reaches an active state. -/
theorem active_implies_started_at_witness :
    (run init [.connect 0, .frame 0 [7] 5]).1.hub.started_at.isSome = true :=
  (active_implies_started_at [.connect 0, .frame 0 [7] 5]).1 (by decide)

/-- C3: on every reachable state at most one uplink session is live
(accepted, not closed, not ended), and a connection attempt made while a
non-closed streamer is registered is answered with the 423 rejection and
changes nothing, so it never reaches the ack stage. -/
theorem single_streamer_and_reject (tr : List Event) :
    (∀ a ∈ (run init tr).1.sessions, ∀ b ∈ (run init tr).1.sessions,
      a.closed = false → a.ended = false → b.closed = false → b.ended = false → a = b) ∧
    (∀ (s : ServerState) (sid cur : Nat), s.hub.streamer = some cur →
      sessionClosed s.sessions cur = false →
      step s (.connect sid) = (s, [.reject423])) := by
  constructor
  · intro a ha b hb hac hae hbc hbe
    have h1 := (inv_run tr).streamerOne a ha hac hae
    have h2 := (inv_run tr).streamerOne b hb hbc hbe
    have hs : a.sid = b.sid := by
      rw [h1] at h2
      injection h2
    exact sid_inj_of_nodup (inv_run tr).nodup ha hb hs
  · intro s sid cur hstr hclosed
    have hbusy : uplinkBusy s = true := by
      unfold uplinkBusy
      rw [hstr]
      show (!sessionClosed s.sessions cur) = true
      rw [hclosed]
      rfl
    simp only [step, hbusy]
    rfl

/-- Witness for C3: with producer 0 connected, a second attempt is
rejected, and the live session is unique. -/
theorem single_streamer_and_reject_witness :
    ((⟨0, false, false, false⟩ : Session) = ⟨0, false, false, false⟩) ∧
    step (run init [.connect 0]).1 (.connect 1) = ((run init [.connect 0]).1, [.reject423]) :=
  ⟨(single_streamer_and_reject [.connect 0]).1 ⟨0, false, false, false⟩ (by decide)
      ⟨0, false, false, false⟩ (by decide) rfl rfl rfl rfl,
   (single_streamer_and_reject []).2 (run init [.connect 0]).1 1 0 (by decide) (by decide)⟩

/-- C4 (counterexample): a producer session that sends K = 1 frames in
total, namely one empty binary frame, receives zero acknowledgements, so
it is not the case that every session sending K >= 1 frames gets exactly
one ack. -/
theorem empty_frame_session_no_ack_counterexample :
    ackCount 0 (run init [.connect 0, .frame 0 [] 1]).2 = 0 := rfl

/-- C4 (amended): over any run, at most one ack is ever sent to a given
session; an ack is only emitted by a non-empty binary frame event, in the
same step in which the frame length was added to bytes_total, carrying
status streaming_started and the post-fanout listener count; and the
first non-empty frame of a live session with no prior ack emits exactly
one ack. -/
theorem ack_exactly_once (tr : List Event) :
    (∀ sid, ackCount sid (run init tr).2 ≤ 1) ∧
    (∀ (s s2 : ServerState) (e : Event) (o : List Output) (sid : Nat) (m : AckMsg),
      step s e = (s2, o) → Output.ack sid m ∈ o →
      ∃ data now, e = .frame sid data now ∧ data ≠ [] ∧
        s2.hub.bytes_total = s.hub.bytes_total + data.length ∧
        m = ⟨"ack", "streaming_started", s2.hub.listeners_count⟩) ∧
    (∀ (s : ServerState) (sess : Session) (sid : Nat) (data : Frame) (now : Nat),
      findSession s.sessions sid = some sess →
      sess.closed = false → sess.ended = false → sess.ack_sent = false → data ≠ [] →
      ∃ m : AckMsg, (step s (.frame sid data now)).2 = [Output.ack sid m]) := by
  refine ⟨?_, ?_, ?_⟩
  · intro sid
    by_cases hex : ∃ sess ∈ (run init tr).1.sessions, sess.sid = sid
    · rcases hex with ⟨sess, hm, rfl⟩
      rw [(inv_run tr).ackInv sess hm]
      split
      · exact le_refl 1
      · exact Nat.zero_le 1
    · push_neg at hex
      rw [(inv_run tr).ackFresh sid hex]
      exact Nat.zero_le 1
  · intro s s2 e o sid m hstep hmem
    cases e with
    | connect sid2 =>
        simp only [step] at hstep
        split at hstep
        · cases hstep
          simp at hmem
        · split at hstep
          · cases hstep
            simp at hmem
          · cases hstep
            simp at hmem
    | frame sid2 data now =>
        simp only [step] at hstep
        split at hstep
        · cases hstep
          simp at hmem
        next sess hfind =>
            split at hstep
            · cases hstep
              simp at hmem
            next hdead =>
                split at hstep
                · cases hstep
                  simp at hmem
                next hempty =>
                    split at hstep
                    · cases hstep
                      simp at hmem
                    next hasent =>
                        cases hstep
                        rw [List.mem_singleton] at hmem
                        have hin : sid2 = sid ∧
                            (⟨"ack", "streaming_started",
                              (s.hub.broadcast data).listeners_count⟩ : AckMsg) = m := by
                          cases hmem
                          exact ⟨rfl, rfl⟩
                        obtain ⟨rfl, rfl⟩ := hin
                        refine ⟨data, now, rfl, ?_, ?_, rfl⟩
                        · intro hnil
                          rw [hnil] at hempty
                          exact hempty rfl
                        · show (s.hub.broadcast data).bytes_total = _
                          rw [broadcast_bytes]
    | ping sid2 =>
        simp only [step] at hstep
        split at hstep
        · cases hstep
          simp at hmem
        · split at hstep
          · cases hstep
            simp at hmem
          · cases hstep
            simp at hmem
    | ws_close sid2 =>
        simp only [step] at hstep
        cases hstep
        simp at hmem
    | disconnect sid2 =>
        simp only [step] at hstep
        split at hstep
        · cases hstep
          simp at hmem
        · split at hstep
          · cases hstep
            simp at hmem
          · cases hstep
            simp at hmem
    | add_listener qid broken =>
        simp only [step] at hstep
        split at hstep
        · cases hstep
          simp at hmem
        · cases hstep
          simp at hmem
    | remove_listener qid =>
        simp only [step] at hstep
        cases hstep
        simp at hmem
    | stats_query now2 =>
        simp only [step] at hstep
        cases hstep
        simp at hmem
  · intro s sess sid data now hfind hc he hsa hdata
    have hie : data.isEmpty = false := by
      cases data with
      | nil => exact absurd rfl hdata
      | cons d ds => rfl
    refine ⟨⟨"ack", "streaming_started", (s.hub.broadcast data).listeners_count⟩, ?_⟩
    simp only [step, hfind, hc, he, hie, hsa]
    rfl

/-- Witness for C4: the first non-empty frame of a fresh session emits
exactly one ack. -/
theorem ack_exactly_once_witness :
    ∃ m : AckMsg, (step (run init [.connect 0]).1 (.frame 0 [7] 5)).2 = [Output.ack 0 m] :=
  (ack_exactly_once []).2.2 (run init [.connect 0]).1 ⟨0, false, false, false⟩ 0 [7] 5
    (by decide) rfl rfl rfl (by decide)

/-- C5 (counterexample): on a reachable state where session 1 is the
registered, actively streaming producer, running the teardown of the
stale session 0 is not a no-op: it clears the active flag (the
assignment sits outside the identity guard in the finally block). -/
theorem teardown_not_noop_counterexample :
    (run init [.connect 0, .frame 0 [7] 5, .ws_close 0, .connect 1,
        .frame 1 [9] 6]).1.hub.streamer = some 1 ∧
    (run init [.connect 0, .frame 0 [7] 5, .ws_close 0, .connect 1,
        .frame 1 [9] 6]).1.hub.active = true ∧
    (run init [.connect 0, .frame 0 [7] 5, .ws_close 0, .connect 1,
        .frame 1 [9] 6, .disconnect 0]).1.hub.streamer = some 1 ∧
    (run init [.connect 0, .frame 0 [7] 5, .ws_close 0, .connect 1,
        .frame 1 [9] 6, .disconnect 0]).1.hub.active = false := by
  refine ⟨rfl, rfl, rfl, rfl⟩

/-- C5 (amended): producer-session teardown always sets active to false;
it clears the producer reference exactly when the terminating session is
the registered one; it never touches bytes_total, the listener set or
started_at; and it is a no-op when no producer is registered and the hub
is already inactive. -/
theorem endProducerSession_effects (h : StreamHub) (sid : Nat) :
    (endProducerSession h sid).bytes_total = h.bytes_total ∧
    (endProducerSession h sid).listeners = h.listeners ∧
    (endProducerSession h sid).started_at = h.started_at ∧
    (endProducerSession h sid).active = false ∧
    (h.streamer = some sid → (endProducerSession h sid).streamer = none) ∧
    (h.streamer ≠ some sid → (endProducerSession h sid).streamer = h.streamer) ∧
    (h.streamer = none → h.active = false → endProducerSession h sid = h) := by
  rw [endProducerSession_eq]
  refine ⟨rfl, rfl, rfl, rfl, ?_, ?_, ?_⟩
  · intro hs
    show (if h.streamer = some sid then none else h.streamer) = none
    rw [if_pos hs]
  · intro hs
    show (if h.streamer = some sid then none else h.streamer) = h.streamer
    rw [if_neg hs]
  · intro hnone hinact
    have hite : (if h.streamer = some sid then none else h.streamer) = h.streamer := by
      rw [hnone]
      simp
    rw [hite, ← hinact]

/-- Witness for C5 at the freshly initialised hub. -/
theorem endProducerSession_effects_witness :
    (endProducerSession initHub 0).bytes_total = initHub.bytes_total ∧
    (endProducerSession initHub 0).listeners = initHub.listeners ∧
    (endProducerSession initHub 0).started_at = initHub.started_at ∧
    (endProducerSession initHub 0).active = false ∧
    (initHub.streamer = some 0 → (endProducerSession initHub 0).streamer = none) ∧
    (initHub.streamer ≠ some 0 → (endProducerSession initHub 0).streamer = initHub.streamer) ∧
    (initHub.streamer = none → initHub.active = false → endProducerSession initHub 0 = initHub) :=
  endProducerSession_effects initHub 0

/-- C6: every broadcast adds exactly the frame length to bytes_total, no
single event ever decreases it, and it is monotone over every run, so the
counter persists across producer disconnects, reconnects and listener
churn. -/
theorem bytes_total_monotone :
    (∀ (h : StreamHub) (data : Frame),
      (h.broadcast data).bytes_total = h.bytes_total + data.length) ∧
    (∀ (s : ServerState) (e : Event), s.hub.bytes_total ≤ (step s e).1.hub.bytes_total) ∧
    (∀ (s : ServerState) (tr : List Event),
      s.hub.bytes_total ≤ (run s tr).1.hub.bytes_total) :=
  ⟨broadcast_bytes, step_bytes_mono, run_bytes_mono⟩

/-- C7: the exception-explicit broadcast never propagates an exception:
for every hub state and frame, including full queues and queues whose
drain-and-repush rescue raises, it returns ok with exactly the pure
broadcast result (dead queues discarded, counter bumped). -/
theorem broadcast_never_raises (h : StreamHub) (data : Frame) :
    broadcastE h data = .ok (h.broadcast data) := by
  simp only [broadcastE, fanoutE_eq]
  rfl

/-- C8: remove_listener is idempotent, and removing a queue that is not
registered leaves the hub unchanged. -/
theorem remove_listener_idempotent :
    (∀ (h : StreamHub) (qid : Nat),
      (h.remove_listener qid).remove_listener qid = h.remove_listener qid) ∧
    (∀ (h : StreamHub) (qid : Nat),
      (∀ q ∈ h.listeners, q.qid ≠ qid) → h.remove_listener qid = h) := by
  constructor
  · intro h qid
    simp only [StreamHub.remove_listener, List.filter_filter]
    congr 1
    apply List.filter_congr
    intro a _
    exact Bool.and_self _
  · intro h qid hq
    show { h with listeners := h.listeners.filter (fun q => q.qid != qid) } = h
    have hfe : h.listeners.filter (fun q => q.qid != qid) = h.listeners := by
      apply List.filter_eq_self.mpr
      intro a ha
      exact bne_iff_ne.mpr (hq a ha)
    rw [hfe]

/-- Witness for C8 at the empty hub. -/
theorem remove_listener_idempotent_witness :
    ((initHub.remove_listener 3).remove_listener 3 = initHub.remove_listener 3) ∧
    (initHub.remove_listener 3 = initHub) :=
  ⟨remove_listener_idempotent.1 initHub 3,
   remove_listener_idempotent.2 initHub 3 (by decide)⟩

/-- C9: the stats query mutates nothing and reports exactly the snapshot;
the snapshot carries the current active flag, the number of registered
queues and the current bytes_total; uptime is 0 whenever the stream is
inactive; and on every reachable state with positive clock readings,
uptime is now minus started_at whenever the stream is active. -/
theorem stats_snapshot_correct :
    (∀ (s : ServerState) (now : Nat),
      step s (.stats_query now) = (s, [.snapshot (s.hub.stats now)])) ∧
    (∀ (h : StreamHub) (now : Nat),
      (h.stats now).active = h.active ∧
      (h.stats now).listeners = h.listeners.length ∧
      (h.stats now).bytes_total = h.bytes_total) ∧
    (∀ (h : StreamHub) (now : Nat), h.active = false → (h.stats now).uptime_sec = 0) ∧
    (∀ (tr : List Event) (now : Nat), (∀ e ∈ tr, posEvent e = true) →
      (run init tr).1.hub.active = true →
      ∃ t, (run init tr).1.hub.started_at = some t ∧
        ((run init tr).1.hub.stats now).uptime_sec = now - t) := by
  refine ⟨fun s now => rfl, fun h now => ⟨rfl, rfl, rfl⟩, ?_, ?_⟩
  · intro h now hin
    simp [StreamHub.stats, hin]
  · intro tr now hpos hactive
    obtain ⟨t, ht, htpos⟩ := pos_run tr hpos hactive
    have htne : (t != 0) = true := bne_iff_ne.mpr (Nat.pos_iff_ne_zero.mp htpos)
    refine ⟨t, ht, ?_⟩
    simp [StreamHub.stats, hactive, ht, pytruthy, htne]

/-- Witness for C9: inactive hub reports zero uptime, and an active
reachable state reports now minus start time. -/
theorem stats_snapshot_correct_witness :
    ((initHub.stats 9).uptime_sec = 0) ∧
    (∃ t, (run init [.connect 0, .frame 0 [7] 5]).1.hub.started_at = some t ∧
      ((run init [.connect 0, .frame 0 [7] 5]).1.hub.stats 9).uptime_sec = 9 - t) :=
  ⟨stats_snapshot_correct.2.2.1 initHub 9 rfl,
   stats_snapshot_correct.2.2.2 [.connect 0, .frame 0 [7] 5] 9 (by decide) (by decide)⟩

/-- C10: an empty binary frame is ignored entirely, in every state: the
step neither changes any state (no broadcast, no bytes_total increment,
no activation) nor emits any output; and the first non-empty frame of a
live session with no prior ack is what sets active and started_at. -/
theorem empty_frame_ignored :
    (∀ (s : ServerState) (sid now : Nat), step s (.frame sid [] now) = (s, [])) ∧
    (∀ (s : ServerState) (sess : Session) (sid : Nat) (data : Frame) (now : Nat),
      findSession s.sessions sid = some sess →
      sess.closed = false → sess.ended = false → sess.ack_sent = false → data ≠ [] →
      (step s (.frame sid data now)).1.hub.active = true ∧
      (step s (.frame sid data now)).1.hub.started_at = some now) := by
  constructor
  · intro s sid now
    simp only [step]
    split
    · rfl
    · split
      · rfl
      · rfl
  · intro s sess sid data now hfind hc he hsa hdata
    have hie : data.isEmpty = false := by
      cases data with
      | nil => exact absurd rfl hdata
      | cons d ds => rfl
    simp only [step, hfind, hc, he, hie, hsa]
    exact ⟨rfl, rfl⟩

/-- Witness for C10: the first non-empty frame activates the session. -/
theorem empty_frame_ignored_witness :
    (step (run init [.connect 0]).1 (.frame 0 [7] 5)).1.hub.active = true ∧
    (step (run init [.connect 0]).1 (.frame 0 [7] 5)).1.hub.started_at = some 5 :=
  empty_frame_ignored.2 (run init [.connect 0]).1 ⟨0, false, false, false⟩ 0 [7] 5
    (by decide) rfl rfl rfl (by decide)

end AudioStream
